import Mathlib

/-
Verification of the Battleships targeting strategy (src/strategy/strategy.py).

The Strategy class is embedded shallowly:
  * the enemy board, a Python 2D list indexed enemy_board[y][x], is modelled
    as a total function Int -> Int -> Char; every operation of the class
    reads or writes it only at in-bounds coordinates, which the theorems
    track explicitly;
  * the follow-up stack (hit_stack, a Python list with append/pop at the
    end) is modelled as a Lean list whose HEAD is the top of the stack, so
    push is cons and pop takes the head;
  * ships_dict (a Python dict ship_id -> count, always iterated through
    sorted(keys)) is modelled as an association list; theorems that speak
    about the lowest identifier assume the list is sorted by key, which is
    exactly the order sorted(self.ships_dict.keys()) produces;
  * cell states use the same characters as the source: '?' unknown,
    'M' miss, 'H' hit, 'S' sunk, 'X' eliminated.
-/

namespace Battleship

/-- A coordinate (x, y): x is the column, y is the row, as in the source. -/
abbrev Coord := Int × Int

/-- The state of the Strategy class: board dimensions, remaining fleet,
belief board and the follow-up stack. -/
structure Strategy where
  rows : Nat
  cols : Nat
  ships_dict : List (Int × Nat)
  board : Int → Int → Char
  hit_stack : List Coord

/-- self.directions = [(0, 1), (1, 0), (0, -1), (-1, 0)], read as (dx, dy). -/
def directions : List Coord := [(0, 1), (1, 0), (0, -1), (-1, 0)]

/-- Strategy.__init__: fresh all-unknown board, empty follow-up stack. -/
def Strategy.init (rows cols : Nat) (ships : List (Int × Nat)) : Strategy :=
  { rows := rows, cols := cols, ships_dict := ships,
    board := fun _ _ => '?', hit_stack := [] }

/-- The bounds check 0 <= x < self.cols and 0 <= y < self.rows, as a Prop. -/
def Strategy.InB (s : Strategy) (x y : Int) : Prop :=
  0 ≤ x ∧ x < (s.cols : Int) ∧ 0 ≤ y ∧ y < (s.rows : Int)

instance (s : Strategy) (x y : Int) : Decidable (s.InB x y) := by
  unfold Strategy.InB; exact inferInstance

/-- The bounds check as a Bool, for use inside the executable operations. -/
def Strategy.inBounds (s : Strategy) (x y : Int) : Bool :=
  decide (0 ≤ x) && decide (x < (s.cols : Int)) &&
    decide (0 ≤ y) && decide (y < (s.rows : Int))

/-- The assignment self.enemy_board[y][x] = c. -/
def Strategy.setCell (s : Strategy) (y x : Int) (c : Char) : Strategy :=
  { s with board := fun y' x' => if y' = y ∧ x' = x then c else s.board y' x' }

/-- The test self.enemy_board[y][x] in the set containing 'H' and 'S'. -/
def isHS (s : Strategy) (c : Coord) : Prop :=
  s.board c.2 c.1 = 'H' ∨ s.board c.2 c.1 = 'S'

instance (s : Strategy) (c : Coord) : Decidable (isHS s c) := by
  unfold isHS; exact inferInstance

/-- A loop over the direction list that pushes (x + dx, y + dy) onto the
stack whenever the guard accepts it; shared by _add_adjacent_targets and
the flood-fill worklist pushes. -/
def pushIf (g : Coord → Bool) (x y : Int) : List Coord → List Coord → List Coord
  | [], st => st
  | d :: ds, st =>
    pushIf g x y ds
      (if g (x + d.1, y + d.2) then (x + d.1, y + d.2) :: st else st)

/-- Strategy._add_adjacent_targets: push every in-bounds orthogonal
neighbour that is still unknown, in direction-list order. -/
def addAdjacentTargets (s : Strategy) (x y : Int) : Strategy :=
  { s with
    hit_stack :=
      pushIf (fun c => s.inBounds c.1 c.2 && (s.board c.2 c.1 == '?'))
        x y directions s.hit_stack }

/-- The inner loop for x in range(cnt starting at x): return the first x
accepted by p. -/
def scanXFrom (p : Nat → Bool) : Nat → Nat → Option Nat
  | _, 0 => none
  | x, c + 1 => if p x then some x else scanXFrom p (x + 1) c

/-- The outer loop for y in range(cnt starting at y): return the first row
where the row scan q succeeds, paired with the found column. -/
def scanYFrom (q : Nat → Option Nat) : Nat → Nat → Option (Nat × Nat)
  | _, 0 => none
  | y, c + 1 =>
    match q y with
    | some x => some (x, y)
    | none => scanYFrom q (y + 1) c

/-- The nested for-y/for-x grid scan with early return, in row-major order. -/
def scanGrid (s : Strategy) (p : Nat → Nat → Bool) : Option (Nat × Nat) :=
  scanYFrom (fun y => scanXFrom (fun x => p x y) 0 s.cols) 0 s.rows

/-- The test self.enemy_board[y][x] == the unknown marker. -/
def unknownAt (s : Strategy) (x y : Nat) : Bool :=
  s.board (y : Int) (x : Int) == '?'

/-- The hunt-phase test: unknown and on checkerboard parity (x + y) % 2 == 0. -/
def unknownEvenAt (s : Strategy) (x y : Nat) : Bool :=
  unknownAt s x y && (x + y) % 2 == 0

/-- The two grid scans of get_next_attack: parity-even unknown cells first,
then any unknown cell; None when both fail. -/
def scanPhase (s : Strategy) : Option (Int × Int) :=
  match scanGrid s (unknownEvenAt s) with
  | some (x, y) => some ((x : Int), (y : Int))
  | none =>
    match scanGrid s (unknownAt s) with
    | some (x, y) => some ((x : Int), (y : Int))
    | none => none

/-- Strategy.get_next_attack. If the stack is non-empty, exactly one entry
is popped; it is returned if still unknown, otherwise it is discarded and
the grid scans run. The second component is the post-call state (the pop
mutates the stack). -/
def getNextAttack (s : Strategy) : Option (Int × Int) × Strategy :=
  match s.hit_stack with
  | [] => (scanPhase s, s)
  | (x, y) :: rest =>
    if s.board y x = '?' then (some (x, y), { s with hit_stack := rest })
    else (scanPhase { s with hit_stack := rest }, { s with hit_stack := rest })

/-- The guard of the flood-fill worklist push: in-bounds and not already a
collected ship tile. -/
def floodGuard (s : Strategy) (tiles : Finset Coord) : Coord → Bool :=
  fun n => s.inBounds n.1 n.2 && decide (n ∉ tiles)

/-- The while to_check loop of _mark_surrounding_impossible: pop a cell;
skip it if already collected; if its state is 'H' or 'S' collect it and
push its in-bounds uncollected neighbours; otherwise drop it. The fuel
argument only bounds the number of loop iterations; floodAux_good shows
ffFuel iterations always suffice. -/
def floodAux (s : Strategy) : Nat → Finset Coord → List Coord → Finset Coord
  | 0, tiles, _ => tiles
  | _ + 1, tiles, [] => tiles
  | fuel + 1, tiles, c :: rest =>
    if c ∈ tiles then floodAux s fuel tiles rest
    else if isHS s c then
      floodAux s fuel (insert c tiles)
        (pushIf (floodGuard s (insert c tiles)) c.1 c.2 directions rest)
    else floodAux s fuel tiles rest

/-- An iteration budget that always lets the flood fill run to completion:
every iteration either shortens the worklist or collects a new in-bounds
tile while growing the worklist by at most four. -/
def ffFuel (s : Strategy) : Nat := 5 * (s.rows * s.cols) + 2

/-- The ship_tiles set computed by the flood fill of
_mark_surrounding_impossible, started from the reported cell (x, y). -/
def shipTiles (s : Strategy) (x y : Int) : Finset Coord :=
  floodAux s (ffFuel s) ∅ [(x, y)]

/-- The perimeter-elimination loop: every cell one step outward from a ship
tile that is in-bounds and not itself a ship tile is set to 'X' (the while
loop of the source body executes its single step and breaks). Note the
source checks only bounds and ship-set membership, not the cell state. -/
def eliminate (s : Strategy) (tiles : Finset Coord) : Strategy :=
  { s with board := fun y x =>
      if (∃ t ∈ tiles, ∃ d ∈ directions, x = t.1 + d.1 ∧ y = t.2 + d.2) ∧
          s.InB x y ∧ (x, y) ∉ tiles
      then 'X' else s.board y x }

/-- Strategy._mark_surrounding_impossible: flood fill then perimeter
elimination. -/
def markSurroundingImpossible (s : Strategy) (x y : Int) : Strategy :=
  eliminate s (shipTiles s x y)

/-- Strategy._update_ships_dict on the association list: decrement the
first entry with a positive count (the list stands for the dict iterated
through sorted(keys), so list order is ascending key order). -/
def updateShipsList : List (Int × Nat) → List (Int × Nat)
  | [] => []
  | (k, v) :: rest =>
    if 0 < v then (k, v - 1) :: rest else (k, v) :: updateShipsList rest

/-- The state-level wrapper of _update_ships_dict. -/
def Strategy.updateShipsDict (s : Strategy) : Strategy :=
  { s with ships_dict := updateShipsList s.ships_dict }

/-- The total count of remaining fleet members. -/
def sumCounts (l : List (Int × Nat)) : Nat := (l.map Prod.snd).sum

/-- Strategy.all_ships_sunk: all counts are zero. -/
def allShipsSunk (s : Strategy) : Bool :=
  s.ships_dict.all (fun e => e.2 == 0)

/-- Strategy.register_attack: miss marks 'M'; hit marks 'H' and either
pushes adjacent targets (not sunk) or overwrites with 'S', decrements the
fleet and runs flood fill plus perimeter elimination (sunk). -/
def registerAttack (s : Strategy) (x y : Int) (is_hit is_sunk : Bool) : Strategy :=
  if is_hit then
    if is_sunk then
      markSurroundingImpossible (((s.setCell y x 'H').setCell y x 'S').updateShipsDict) x y
    else addAdjacentTargets (s.setCell y x 'H') x y
  else s.setCell y x 'M'

/-- Orthogonal adjacency: b is one direction step away from a. -/
def adj (a b : Coord) : Prop :=
  ∃ d ∈ directions, b = (a.1 + d.1, a.2 + d.2)

/-- One step of ship-tile connectivity: the target is in-bounds and in
state 'H' or 'S' and orthogonally adjacent to the source. -/
def stepRel (s : Strategy) (a b : Coord) : Prop :=
  s.InB b.1 b.2 ∧ isHS s b ∧ adj a b

/-- Connectivity over 'H'/'S' cells: the reflexive-transitive closure of
stepRel. The connected component of a cell c is the set of cells it
reaches. -/
def Reach (s : Strategy) (a b : Coord) : Prop :=
  Relation.ReflTransGen (stepRel s) a b

/-- The finite set of in-bounds coordinates of the board. -/
def boundedSet (s : Strategy) : Finset Coord :=
  (Finset.range s.cols ×ˢ Finset.range s.rows).image fun p => ((p.1 : Int), (p.2 : Int))

/-- The loop invariant of the flood-fill worklist, relative to the start
cell: collected tiles are in-bounds 'H'/'S' cells reachable from the
start; worklist entries are in-bounds and are the start or a neighbour of
a collected tile; every in-bounds 'H'/'S' neighbour of a collected tile is
collected or pending; the start is collected or pending. -/
structure FFInv (s : Strategy) (start : Coord) (tiles : Finset Coord)
    (toCheck : List Coord) : Prop where
  tiles_ok : ∀ t ∈ tiles, isHS s t ∧ s.InB t.1 t.2 ∧ Reach s start t
  check_ok : ∀ c ∈ toCheck, s.InB c.1 c.2 ∧ (c = start ∨ ∃ t ∈ tiles, adj t c)
  closure : ∀ t ∈ tiles, ∀ n, adj t n → s.InB n.1 n.2 → isHS s n →
    n ∈ tiles ∨ n ∈ toCheck
  start_in : start ∈ tiles ∨ start ∈ toCheck

/-- What the finished flood fill satisfies: soundness, membership of the
start, and closure under in-bounds 'H'/'S' neighbours. -/
structure FFGood (s : Strategy) (start : Coord) (r : Finset Coord) : Prop where
  sound : ∀ t ∈ r, isHS s t ∧ s.InB t.1 t.2 ∧ Reach s start t
  start_mem : start ∈ r
  closure : ∀ t ∈ r, ∀ n, adj t n → s.InB n.1 n.2 → isHS s n → n ∈ r

/-- The states reachable through the public interface: the initial state,
registering a result at an in-bounds coordinate, and asking for the next
attack (which mutates the stack). -/
inductive Reachable : Strategy → Prop where
  | init (rows cols : Nat) (ships : List (Int × Nat)) :
      Reachable (Strategy.init rows cols ships)
  | reg (s : Strategy) (x y : Int) (hh hk : Bool) :
      Reachable s → s.InB x y → Reachable (registerAttack s x y hh hk)
  | next (s : Strategy) : Reachable s → Reachable (getNextAttack s).2

/-- Every follow-up-stack entry is in-bounds. -/
def stackOK (s : Strategy) : Prop := ∀ c ∈ s.hit_stack, s.InB c.1 c.2

/-- A state used to separate the single-pop behaviour from the claimed
pop-until-valid behaviour: the stack top (0, 1) is stale (its cell is
'M') while the entry (1, 1) below it is still unknown. -/
def c1State : Strategy :=
  { rows := 2, cols := 2, ships_dict := [(1, 1)],
    board := fun y x => if y = 1 ∧ x = 0 then 'M' else '?',
    hit_stack := [(0, 1), (1, 1)] }

/-- A 3x3 game in which (x=0, y=1) was reported a miss. -/
def c3s1 : Strategy := registerAttack (Strategy.init 3 3 [(1, 1)]) 0 1 false false

/-- The same game after a sink at (x=0, y=0): elimination overwrites the
miss below it. -/
def c3s2 : Strategy := registerAttack c3s1 0 0 true true

/-- The intermediate state of the sink call of c3s2 at which the flood
fill and elimination run. -/
def c3mid : Strategy := ((c3s1.setCell 0 0 'H').setCell 0 0 'S').updateShipsDict

/-- A 3x3 game in which (x=0, y=0) was reported hit, not sunk. -/
def c4s1 : Strategy := registerAttack (Strategy.init 3 3 [(1, 1)]) 0 0 true false

/-- The same game after the adjacent cell (x=1, y=0) sinks the ship. -/
def c4s2 : Strategy := registerAttack c4s1 1 0 true true

/-- The intermediate state of that sink call at which the flood fill runs:
the reported cell already overwritten to 'S', the fleet decremented. -/
def c4mid : Strategy := ((c4s1.setCell 0 1 'H').setCell 0 1 'S').updateShipsDict

/-- A 3x3 state in which a hit at (0, 0) and the just-sunk cell (1, 0)
form one two-cell ship, everything else unknown; the flood fill must
collect both. -/
def c5s : Strategy :=
  { rows := 3, cols := 3, ships_dict := [(1, 0)],
    board := fun y x => if y = 0 ∧ x = 0 then 'H' else if y = 0 ∧ x = 1 then 'S' else '?',
    hit_stack := [] }

/-- A 2x2 game whose only fleet entry is exhausted and whose cell
(x=0, y=0) is already resolved as a miss. -/
def c9s : Strategy := registerAttack (Strategy.init 2 2 [(1, 0)]) 0 0 false false

/-- A finished 1x1 game: the single cell was reported a miss, so no
unknown cell remains and the stack is empty. -/
def c10s : Strategy := registerAttack (Strategy.init 1 1 [(1, 1)]) 0 0 false false

/-- The Bool bounds check agrees with the Prop bounds check. -/
lemma inBounds_iff (s : Strategy) (x y : Int) : s.inBounds x y = true ↔ s.InB x y := by
  simp only [Strategy.inBounds, Strategy.InB, Bool.and_eq_true, decide_eq_true_eq]
  tauto

/-- Membership in the push loop: an element is an old stack entry or one of
the direction neighbours accepted by the guard. -/
lemma mem_pushIf (g : Coord → Bool) (x y : Int) :
    ∀ (ds : List Coord) (st : List Coord) (a : Coord),
      a ∈ pushIf g x y ds st ↔
        a ∈ st ∨ ∃ d ∈ ds, a = (x + d.1, y + d.2) ∧ g (x + d.1, y + d.2) = true := by
  intro ds
  induction ds with
  | nil => intro st a; simp [pushIf]
  | cons d ds ih =>
    intro st a
    simp only [pushIf]
    rw [ih]
    by_cases hg : g (x + d.1, y + d.2) = true
    · simp only [if_pos hg, List.mem_cons]
      constructor
      · rintro ((rfl | h) | ⟨d', hd', ha, hgd⟩)
        · exact Or.inr ⟨d, Or.inl rfl, rfl, hg⟩
        · exact Or.inl h
        · exact Or.inr ⟨d', Or.inr hd', ha, hgd⟩
      · rintro (h | ⟨d', hd', ha, hgd⟩)
        · exact Or.inl (Or.inr h)
        · rcases hd' with rfl | hd''
          · exact Or.inl (Or.inl ha)
          · exact Or.inr ⟨d', hd'', ha, hgd⟩
    · simp only [if_neg hg, List.mem_cons]
      constructor
      · rintro (h | ⟨d', hd', ha, hgd⟩)
        · exact Or.inl h
        · exact Or.inr ⟨d', Or.inr hd', ha, hgd⟩
      · rintro (h | ⟨d', hd', ha, hgd⟩)
        · exact Or.inl h
        · rcases hd' with rfl | hd''
          · exact absurd hgd hg
          · exact Or.inr ⟨d', hd'', ha, hgd⟩

/-- The push loop grows the worklist by at most one entry per direction. -/
lemma length_pushIf (g : Coord → Bool) (x y : Int) :
    ∀ (ds st : List Coord), (pushIf g x y ds st).length ≤ st.length + ds.length := by
  intro ds
  induction ds with
  | nil => intro st; simp [pushIf]
  | cons d ds ih =>
    intro st
    simp only [pushIf]
    refine le_trans (ih _) ?_
    by_cases hg : g (x + d.1, y + d.2) = true
    · simp only [if_pos hg, List.length_cons]
      omega
    · simp only [if_neg hg, List.length_cons]
      omega

/-- The inner scan returns none exactly when the predicate fails on the
whole scanned segment. -/
lemma scanXFrom_none (p : Nat → Bool) :
    ∀ (c x : Nat), scanXFrom p x c = none ↔ ∀ t, x ≤ t → t < x + c → p t = false := by
  intro c
  induction c with
  | zero =>
    intro x
    constructor
    · intro _ t h1 h2; omega
    · intro _; rfl
  | succ n ih =>
    intro x
    simp only [scanXFrom]
    by_cases hp : p x = true
    · simp only [if_pos hp]
      constructor
      · intro h; simp at h
      · intro h; exact absurd (h x le_rfl (by omega)) (by simp [hp])
    · simp only [if_neg hp]
      have hp' : p x = false := by
        cases hpp : p x
        · rfl
        · exact absurd hpp hp
      rw [ih]
      constructor
      · intro h t h1 h2
        rcases Nat.eq_or_lt_of_le h1 with rfl | h3
        · exact hp'
        · exact h t h3 (by omega)
      · intro h t h1 h2
        exact h t (by omega) (by omega)

/-- The inner scan returns the first accepted index of the segment. -/
lemma scanXFrom_some (p : Nat → Bool) :
    ∀ (c x r : Nat), scanXFrom p x c = some r →
      x ≤ r ∧ r < x + c ∧ p r = true ∧ ∀ t, x ≤ t → t < r → p t = false := by
  intro c
  induction c with
  | zero => intro x r h; exact Option.noConfusion h
  | succ n ih =>
    intro x r
    simp only [scanXFrom]
    by_cases hp : p x = true
    · simp only [if_pos hp]
      intro h
      have hxr : x = r := Option.some.inj h
      subst hxr
      exact ⟨le_rfl, by omega, hp, fun t h1 h2 => by omega⟩
    · simp only [if_neg hp]
      have hp' : p x = false := by
        cases hpp : p x
        · rfl
        · exact absurd hpp hp
      intro h
      obtain ⟨h1, h2, h3, h4⟩ := ih (x + 1) r h
      refine ⟨by omega, by omega, h3, ?_⟩
      intro t ht1 ht2
      rcases Nat.eq_or_lt_of_le ht1 with rfl | ht3
      · exact hp'
      · exact h4 t (by omega) ht2

/-- The outer scan returns none exactly when every scanned row scan fails. -/
lemma scanYFrom_none (q : Nat → Option Nat) :
    ∀ (c y : Nat), scanYFrom q y c = none ↔ ∀ t, y ≤ t → t < y + c → q t = none := by
  intro c
  induction c with
  | zero =>
    intro y
    constructor
    · intro _ t h1 h2; omega
    · intro _; rfl
  | succ n ih =>
    intro y
    simp only [scanYFrom]
    cases hq : q y with
    | some xx =>
      constructor
      · intro h; simp at h
      · intro h
        exfalso
        have h2 := h y le_rfl (by omega)
        rw [hq] at h2
        exact Option.noConfusion h2
    | none =>
      constructor
      · intro h t h1 h2
        rcases Nat.eq_or_lt_of_le h1 with rfl | h3
        · exact hq
        · exact (ih (y + 1)).mp h t h3 (by omega)
      · intro h
        exact (ih (y + 1)).mpr (fun t h1 h2 => h t (by omega) (by omega))

/-- The outer scan returns the first row where the row scan succeeds,
paired with its result. -/
lemma scanYFrom_some (q : Nat → Option Nat) :
    ∀ (c y : Nat) (r : Nat × Nat), scanYFrom q y c = some r →
      y ≤ r.2 ∧ r.2 < y + c ∧ q r.2 = some r.1 ∧ ∀ t, y ≤ t → t < r.2 → q t = none := by
  intro c
  induction c with
  | zero => intro y r h; exact Option.noConfusion h
  | succ n ih =>
    intro y r
    simp only [scanYFrom]
    cases hq : q y with
    | some xx =>
      intro h
      have hr : (xx, y) = r := Option.some.inj h
      subst hr
      exact ⟨le_rfl, by omega, hq, fun t h1 h2 => by omega⟩
    | none =>
      intro h
      obtain ⟨h1, h2, h3, h4⟩ := ih (y + 1) r h
      refine ⟨by omega, by omega, h3, ?_⟩
      intro t ht1 ht2
      rcases Nat.eq_or_lt_of_le ht1 with rfl | ht3
      · exact hq
      · exact h4 t (by omega) ht2

/-- The grid scan returns none exactly when the predicate fails on the
whole grid. -/
lemma scanGrid_none (s : Strategy) (p : Nat → Nat → Bool) :
    scanGrid s p = none ↔ ∀ y, y < s.rows → ∀ x, x < s.cols → p x y = false := by
  rw [scanGrid, scanYFrom_none]
  constructor
  · intro h y hy x hx
    have h2 := h y (by omega) (by omega)
    rw [scanXFrom_none] at h2
    exact h2 x (by omega) (by omega)
  · intro h t ht1 ht2
    rw [scanXFrom_none]
    intro u hu1 hu2
    exact h t (by omega) u (by omega)

/-- The grid scan returns the row-major-first accepted cell. -/
lemma scanGrid_some (s : Strategy) (p : Nat → Nat → Bool) (x y : Nat)
    (h : scanGrid s p = some (x, y)) :
    x < s.cols ∧ y < s.rows ∧ p x y = true ∧
      (∀ y', y' < y → ∀ x', x' < s.cols → p x' y' = false) ∧
      (∀ x', x' < x → p x' y = false) := by
  rw [scanGrid] at h
  obtain ⟨h1, h2, h3, h4⟩ := scanYFrom_some _ _ _ _ h
  dsimp at h1 h2 h3 h4
  obtain ⟨g1, g2, g3, g4⟩ := scanXFrom_some _ _ _ _ h3
  refine ⟨by omega, by omega, g3, ?_, ?_⟩
  · intro y' hy' x' hx'
    have h5 := h4 y' (by omega) hy'
    rw [scanXFrom_none] at h5
    exact h5 x' (by omega) (by omega)
  · intro x' hx'
    exact g4 x' (by omega) hx'

/-- If the predicate holds somewhere on the grid, the grid scan succeeds. -/
lemma scanGrid_ex (s : Strategy) (p : Nat → Nat → Bool)
    (h : ∃ x, x < s.cols ∧ ∃ y, y < s.rows ∧ p x y = true) :
    ∃ r, scanGrid s p = some r := by
  cases hg : scanGrid s p with
  | some r => exact ⟨r, rfl⟩
  | none =>
    rw [scanGrid_none] at hg
    obtain ⟨x, hx, y, hy, hp⟩ := h
    exact absurd (hg y hy x hx) (by simp [hp])

/-- Popping the stack does not change what the grid scans see. -/
lemma scanPhase_pop (s : Strategy) (rest : List Coord) :
    scanPhase { s with hit_stack := rest } = scanPhase s := rfl

/-- If no in-bounds cell is unknown, both grid scans fail. -/
lemma scanPhase_none_of (s : Strategy)
    (h : ∀ y, y < s.rows → ∀ x, x < s.cols → s.board (y : Int) (x : Int) ≠ '?') :
    scanPhase s = none := by
  have h1 : scanGrid s (unknownAt s) = none := by
    rw [scanGrid_none]
    intro y hy x hx
    have hb := h y hy x hx
    simp [unknownAt, hb]
  have h2 : scanGrid s (unknownEvenAt s) = none := by
    rw [scanGrid_none]
    intro y hy x hx
    have hb := h y hy x hx
    simp [unknownEvenAt, unknownAt, hb]
  simp [scanPhase, h1, h2]

/-- Whatever scanPhase returns is an in-bounds unknown cell. -/
lemma scanPhase_some_char (s : Strategy) (r : Int × Int) (h : scanPhase s = some r) :
    ∃ x y : Nat, r = ((x : Int), (y : Int)) ∧ x < s.cols ∧ y < s.rows ∧
      s.board (y : Int) (x : Int) = '?' := by
  unfold scanPhase at h
  cases h1 : scanGrid s (unknownEvenAt s) with
  | some xy =>
    rw [h1] at h
    obtain ⟨x, y⟩ := xy
    dsimp at h
    obtain ⟨hc, hr, hp, _, _⟩ := scanGrid_some s _ x y h1
    refine ⟨x, y, (Option.some.inj h).symm, hc, hr, ?_⟩
    have h3 := hp
    simp only [unknownEvenAt, Bool.and_eq_true] at h3
    have h4 := h3.1
    simpa [unknownAt] using h4
  | none =>
    rw [h1] at h
    cases h2 : scanGrid s (unknownAt s) with
    | some xy =>
      rw [h2] at h
      obtain ⟨x, y⟩ := xy
      dsimp at h
      obtain ⟨hc, hr, hp, _, _⟩ := scanGrid_some s _ x y h2
      refine ⟨x, y, (Option.some.inj h).symm, hc, hr, ?_⟩
      simpa [unknownAt] using hp
    | none =>
      rw [h2] at h
      exact Option.noConfusion h

/-- If some in-bounds cell is unknown, scanPhase succeeds. -/
lemma scanPhase_ex (s : Strategy)
    (h : ∃ x, x < s.cols ∧ ∃ y, y < s.rows ∧ s.board (y : Int) (x : Int) = '?') :
    ∃ r, scanPhase s = some r := by
  unfold scanPhase
  cases h1 : scanGrid s (unknownEvenAt s) with
  | some xy =>
    obtain ⟨x, y⟩ := xy
    exact ⟨((x : Int), (y : Int)), rfl⟩
  | none =>
    have h2 : ∃ r, scanGrid s (unknownAt s) = some r := by
      apply scanGrid_ex
      obtain ⟨x, hx, y, hy, hb⟩ := h
      exact ⟨x, hx, y, hy, by simp [unknownAt, hb]⟩
    obtain ⟨xy, h2⟩ := h2
    rw [h2]
    obtain ⟨x, y⟩ := xy
    exact ⟨((x : Int), (y : Int)), rfl⟩

/-- Membership in the set of in-bounds coordinates. -/
lemma mem_boundedSet (s : Strategy) (c : Coord) : c ∈ boundedSet s ↔ s.InB c.1 c.2 := by
  obtain ⟨cx, cy⟩ := c
  simp only [boundedSet, Finset.mem_image, Finset.mem_product, Finset.mem_range,
    Prod.exists, Prod.mk.injEq, Strategy.InB]
  constructor
  · rintro ⟨a, b, ⟨ha, hb⟩, h1, h2⟩
    refine ⟨?_, ?_, ?_, ?_⟩ <;> omega
  · rintro ⟨h1, h2, h3, h4⟩
    exact ⟨cx.toNat, cy.toNat, ⟨by omega, by omega⟩, by omega, by omega⟩

/-- The board has at most cols * rows in-bounds coordinates. -/
lemma boundedSet_card_le (s : Strategy) : (boundedSet s).card ≤ s.cols * s.rows := by
  refine le_trans Finset.card_image_le ?_
  rw [Finset.card_product, Finset.card_range, Finset.card_range]

/-- The flood-fill push guard accepts exactly in-bounds uncollected cells. -/
lemma floodGuard_true (s : Strategy) (tiles : Finset Coord) (n : Coord) :
    floodGuard s tiles n = true ↔ s.InB n.1 n.2 ∧ n ∉ tiles := by
  simp [floodGuard, inBounds_iff]

/-- An exhausted worklist turns the loop invariant into the final bundle. -/
lemma ffinv_nil_good {s : Strategy} {start : Coord} {tiles : Finset Coord}
    (h : FFInv s start tiles []) : FFGood s start tiles := by
  refine ⟨h.tiles_ok, ?_, ?_⟩
  · rcases h.start_in with hm | hm
    · exact hm
    · exact absurd hm (List.not_mem_nil start)
  · intro t ht n hadj hin hhs
    rcases h.closure t ht n hadj hin hhs with hm | hm
    · exact hm
    · exact absurd hm (List.not_mem_nil n)

/-- The flood-fill worklist loop preserves its invariant and, given enough
fuel for its decreasing measure, terminates with the final bundle. -/
lemma floodAux_good (s : Strategy) (start : Coord) (hs : isHS s start) :
    ∀ (fuel : Nat) (tiles : Finset Coord) (toCheck : List Coord),
      FFInv s start tiles toCheck →
      5 * ((boundedSet s).card - tiles.card) + toCheck.length ≤ fuel →
      FFGood s start (floodAux s fuel tiles toCheck) := by
  intro fuel
  induction fuel with
  | zero =>
    intro tiles toCheck hinv hm
    cases toCheck with
    | nil => exact ffinv_nil_good hinv
    | cons c rest =>
      simp only [List.length_cons] at hm
      omega
  | succ n ih =>
    intro tiles toCheck hinv hm
    cases toCheck with
    | nil => exact ffinv_nil_good hinv
    | cons c rest =>
      obtain ⟨hTok, hCok, hCl, hSt⟩ := hinv
      simp only [List.length_cons] at hm
      by_cases hc : c ∈ tiles
      · simp only [floodAux, if_pos hc]
        apply ih
        · refine ⟨hTok, fun d hd => hCok d (List.mem_cons_of_mem c hd), ?_, ?_⟩
          · intro t ht m hadj hin hhs2
            rcases hCl t ht m hadj hin hhs2 with hmem | hmem
            · exact Or.inl hmem
            · rcases List.mem_cons.mp hmem with rfl | hmem'
              · exact Or.inl hc
              · exact Or.inr hmem'
          · rcases hSt with hmem | hmem
            · exact Or.inl hmem
            · rcases List.mem_cons.mp hmem with rfl | hmem'
              · exact Or.inl hc
              · exact Or.inr hmem'
        · omega
      · by_cases hhs : isHS s c
        · simp only [floodAux, if_neg hc, if_pos hhs]
          have hcInB : s.InB c.1 c.2 := (hCok c (List.mem_cons_self c rest)).1
          have hcReach : Reach s start c := by
            rcases (hCok c (List.mem_cons_self c rest)).2 with rfl | ⟨t, ht, hadj⟩
            · exact Relation.ReflTransGen.refl
            · exact Relation.ReflTransGen.tail (hTok t ht).2.2 ⟨hcInB, hhs, hadj⟩
          apply ih
          · refine ⟨?_, ?_, ?_, ?_⟩
            · intro t ht
              rcases Finset.mem_insert.mp ht with rfl | ht'
              · exact ⟨hhs, hcInB, hcReach⟩
              · exact hTok t ht'
            · intro m hmem
              rw [mem_pushIf] at hmem
              rcases hmem with hmem | ⟨d, hd, rfl, hg⟩
              · obtain ⟨hin, hor⟩ := hCok m (List.mem_cons_of_mem c hmem)
                refine ⟨hin, ?_⟩
                rcases hor with rfl | ⟨t, ht, hadj⟩
                · exact Or.inl rfl
                · exact Or.inr ⟨t, Finset.mem_insert_of_mem ht, hadj⟩
              · rw [floodGuard_true] at hg
                exact ⟨hg.1, Or.inr ⟨c, Finset.mem_insert_self c tiles, ⟨d, hd, rfl⟩⟩⟩
            · intro t ht m hadj hin hhs2
              rcases Finset.mem_insert.mp ht with rfl | ht'
              · obtain ⟨d, hd, hmd⟩ := hadj
                subst hmd
                by_cases hmt : (t.1 + d.1, t.2 + d.2) ∈ insert t tiles
                · exact Or.inl hmt
                · refine Or.inr ?_
                  rw [mem_pushIf]
                  exact Or.inr ⟨d, hd, rfl, (floodGuard_true _ _ _).mpr ⟨hin, hmt⟩⟩
              · rcases hCl t ht' m hadj hin hhs2 with hmem | hmem
                · exact Or.inl (Finset.mem_insert_of_mem hmem)
                · rcases List.mem_cons.mp hmem with rfl | hmem'
                  · exact Or.inl (Finset.mem_insert_self m tiles)
                  · exact Or.inr ((mem_pushIf _ _ _ _ _ _).mpr (Or.inl hmem'))
            · rcases hSt with hmem | hmem
              · exact Or.inl (Finset.mem_insert_of_mem hmem)
              · rcases List.mem_cons.mp hmem with rfl | hmem'
                · exact Or.inl (Finset.mem_insert_self start tiles)
                · exact Or.inr ((mem_pushIf _ _ _ _ _ _).mpr (Or.inl hmem'))
          · have hsub : tiles ⊆ boundedSet s := by
              intro t ht
              exact (mem_boundedSet s t).mpr (hTok t ht).2.1
            have hcB : c ∈ boundedSet s := (mem_boundedSet s c).mpr hcInB
            have h1 : (insert c tiles).card = tiles.card + 1 :=
              Finset.card_insert_of_not_mem hc
            have h2 : (insert c tiles).card ≤ (boundedSet s).card := by
              apply Finset.card_le_card
              intro t ht
              rcases Finset.mem_insert.mp ht with rfl | ht'
              · exact hcB
              · exact hsub ht'
            have h3 : (pushIf (floodGuard s (insert c tiles)) c.1 c.2 directions rest).length ≤
                rest.length + 4 := by
              have h4 := length_pushIf (floodGuard s (insert c tiles)) c.1 c.2 directions rest
              simpa [directions] using h4
            omega
        · simp only [floodAux, if_neg hc, if_neg hhs]
          apply ih
          · refine ⟨hTok, fun d hd => hCok d (List.mem_cons_of_mem c hd), ?_, ?_⟩
            · intro t ht m hadj hin hhs2
              rcases hCl t ht m hadj hin hhs2 with hmem | hmem
              · exact Or.inl hmem
              · rcases List.mem_cons.mp hmem with rfl | hmem'
                · exact absurd hhs2 hhs
                · exact Or.inr hmem'
            · rcases hSt with hmem | hmem
              · exact Or.inl hmem
              · rcases List.mem_cons.mp hmem with rfl | hmem'
                · exact absurd hs hhs
                · exact Or.inr hmem'
          · omega

/-- The flood fill started at an in-bounds 'H'/'S' cell produces the final
bundle: sound, contains the start, closed under 'H'/'S' neighbours. -/
lemma shipTiles_good (s : Strategy) (x y : Int) (hb : s.InB x y) (hhs : isHS s (x, y)) :
    FFGood s (x, y) (shipTiles s x y) := by
  have hinv : FFInv s (x, y) ∅ [(x, y)] := by
    refine ⟨?_, ?_, ?_, ?_⟩
    · intro t ht
      exact absurd ht (Finset.not_mem_empty t)
    · intro c hc
      rcases List.mem_cons.mp hc with rfl | hc'
      · exact ⟨hb, Or.inl rfl⟩
      · exact absurd hc' (List.not_mem_nil c)
    · intro t ht m hadj hin hhs2
      exact absurd ht (Finset.not_mem_empty t)
    · exact Or.inr (List.mem_cons_self _ _)
  have hmes : 5 * ((boundedSet s).card - (∅ : Finset Coord).card) +
      [((x : Int), (y : Int))].length ≤ ffFuel s := by
    have h1 := boundedSet_card_le s
    have h2 : s.cols * s.rows = s.rows * s.cols := Nat.mul_comm _ _
    simp only [Finset.card_empty, Nat.sub_zero, List.length_singleton, ffFuel]
    omega
  exact floodAux_good s (x, y) hhs (ffFuel s) ∅ [(x, y)] hinv hmes

/-- The flood fill computes exactly the connected component, under
orthogonal adjacency over 'H'/'S' cells, of the start cell. -/
lemma shipTiles_iff_reach (s : Strategy) (x y : Int) (hb : s.InB x y)
    (hhs : isHS s (x, y)) (c : Coord) :
    c ∈ shipTiles s x y ↔ Reach s (x, y) c := by
  have hg := shipTiles_good s x y hb hhs
  constructor
  · intro hc
    exact (hg.sound c hc).2.2
  · intro hr
    induction hr with
    | refl => exact hg.start_mem
    | tail hab hbc ih => exact hg.closure _ ih _ hbc.2.2 hbc.1 hbc.2.1

/-- The board after perimeter elimination, cell by cell. -/
lemma eliminate_board (s : Strategy) (tiles : Finset Coord) (cy cx : Int) :
    (eliminate s tiles).board cy cx =
      if (∃ t ∈ tiles, ∃ d ∈ directions, cx = t.1 + d.1 ∧ cy = t.2 + d.2) ∧
          s.InB cx cy ∧ (cx, cy) ∉ tiles
      then 'X' else s.board cy cx := rfl

/-- A ship tile is never touched by perimeter elimination. -/
lemma eliminate_board_of_mem (s : Strategy) (tiles : Finset Coord) (t : Coord)
    (ht : t ∈ tiles) :
    (eliminate s tiles).board t.2 t.1 = s.board t.2 t.1 := by
  rw [eliminate_board, if_neg]
  intro hcond
  exact hcond.2.2 ht

/-- A cell changed by perimeter elimination is an in-bounds non-ship-tile
step-one neighbour of a ship tile, and it is set to 'X'. -/
lemma eliminate_board_changed (s : Strategy) (tiles : Finset Coord) (cx cy : Int)
    (h : (eliminate s tiles).board cy cx ≠ s.board cy cx) :
    (∃ t ∈ tiles, ∃ d ∈ directions, cx = t.1 + d.1 ∧ cy = t.2 + d.2) ∧
      s.InB cx cy ∧ (cx, cy) ∉ tiles ∧ (eliminate s tiles).board cy cx = 'X' := by
  by_cases hcond : (∃ t ∈ tiles, ∃ d ∈ directions, cx = t.1 + d.1 ∧ cy = t.2 + d.2) ∧
      s.InB cx cy ∧ (cx, cy) ∉ tiles
  · refine ⟨hcond.1, hcond.2.1, hcond.2.2, ?_⟩
    rw [eliminate_board, if_pos hcond]
  · exfalso
    apply h
    rw [eliminate_board, if_neg hcond]

/-- register_attack never changes the board dimensions. -/
lemma registerAttack_dims (s : Strategy) (x y : Int) (hh hk : Bool) :
    (registerAttack s x y hh hk).rows = s.rows ∧ (registerAttack s x y hh hk).cols = s.cols := by
  cases hh <;> cases hk <;> exact ⟨rfl, rfl⟩

/-- Every entry of the follow-up stack of a reachable state is in-bounds:
pushes are guarded by the bounds check and pops only remove entries. -/
lemma reachable_stackOK (s : Strategy) (h : Reachable s) : stackOK s := by
  induction h with
  | init rows cols ships =>
    intro c hc
    exact absurd hc (List.not_mem_nil c)
  | reg s x y hh hk hr hin ih =>
    intro c hc
    cases hh with
    | false =>
      cases hk with
      | false => exact ih c hc
      | true => exact ih c hc
    | true =>
      cases hk with
      | true => exact ih c hc
      | false =>
        have hc' : c ∈ pushIf (fun c0 => (s.setCell y x 'H').inBounds c0.1 c0.2 &&
            ((s.setCell y x 'H').board c0.2 c0.1 == '?')) x y directions s.hit_stack := hc
        rw [mem_pushIf] at hc'
        rcases hc' with hmem | ⟨d, hd, rfl, hg⟩
        · exact ih c hmem
        · have hgi := (Bool.and_eq_true _ _).mp hg
          have hin2 := (inBounds_iff _ _ _).mp hgi.1
          exact hin2
  | next s hr ih =>
    intro c hc
    cases hst : s.hit_stack with
    | nil =>
      have h2 : (getNextAttack s).2 = s := by simp [getNextAttack, hst]
      rw [h2] at hc ⊢
      exact ih c hc
    | cons p rest =>
      obtain ⟨px, py⟩ := p
      by_cases hb : s.board py px = '?'
      · have h2 : (getNextAttack s).2 = { s with hit_stack := rest } := by
          simp [getNextAttack, hst, hb]
        rw [h2] at hc ⊢
        exact ih c (by rw [hst]; exact List.mem_cons_of_mem _ hc)
      · have h2 : (getNextAttack s).2 = { s with hit_stack := rest } := by
          simp [getNextAttack, hst, hb]
        rw [h2] at hc ⊢
        exact ih c (by rw [hst]; exact List.mem_cons_of_mem _ hc)

/-- The fleet decrement splits the list at the first positive entry and
decrements exactly that entry. -/
lemma updateShipsList_split :
    ∀ (l : List (Int × Nat)), (∃ e ∈ l, 0 < e.2) →
      ∃ pre k v post, l = pre ++ (k, v) :: post ∧ (∀ e ∈ pre, e.2 = 0) ∧ 0 < v ∧
        updateShipsList l = pre ++ (k, v - 1) :: post := by
  intro l
  induction l with
  | nil =>
    intro h
    obtain ⟨e, he, _⟩ := h
    exact absurd he (List.not_mem_nil e)
  | cons e rest ih =>
    intro h
    obtain ⟨k0, v0⟩ := e
    by_cases hv : 0 < v0
    · refine ⟨[], k0, v0, rest, rfl, ?_, hv, by simp [updateShipsList, hv]⟩
      intro e he
      exact absurd he (List.not_mem_nil e)
    · have hv0 : v0 = 0 := by omega
      subst hv0
      have h2 : ∃ e ∈ rest, 0 < e.2 := by
        obtain ⟨e, he, hpe⟩ := h
        rcases List.mem_cons.mp he with rfl | he'
        · exact absurd hpe hv
        · exact ⟨e, he', hpe⟩
      obtain ⟨pre, k, v, post, h1, hpre, hvpos, hupd⟩ := ih h2
      refine ⟨(k0, 0) :: pre, k, v, post, by rw [h1]; rfl, ?_, hvpos, ?_⟩
      · intro e he
        rcases List.mem_cons.mp he with rfl | he'
        · rfl
        · exact hpre e he'
      · simp [updateShipsList, hupd]

/-- An exhausted fleet list is returned unchanged: the decrement loop finds
no positive entry and simply terminates. -/
lemma updateShipsList_of_all_zero :
    ∀ (l : List (Int × Nat)), (∀ e ∈ l, e.2 = 0) → updateShipsList l = l := by
  intro l
  induction l with
  | nil => intro _; rfl
  | cons e rest ih =>
    intro h
    obtain ⟨k0, v0⟩ := e
    have hv : v0 = 0 := h (k0, v0) (List.mem_cons_self _ _)
    subst hv
    simp [updateShipsList, ih fun e he => h e (List.mem_cons_of_mem _ he)]

/-- all_ships_sunk tests that every remaining count is zero. -/
lemma allShipsSunk_iff (s : Strategy) :
    allShipsSunk s = true ↔ ∀ e ∈ s.ships_dict, e.2 = 0 := by
  simp [allShipsSunk]

/-- Claim C1 is false as stated: in c1State the stack is non-empty and
still holds the unknown cell (1, 1), yet get_next_attack does not return
any stack cell at all — it pops only the stale top (0, 1), discards it,
and falls through to the grid scan, which returns (0, 0). -/
theorem spec_c1_counterexample :
    c1State.hit_stack ≠ [] ∧
    ((1 : Int), (1 : Int)) ∈ c1State.hit_stack ∧ c1State.board 1 1 = '?' ∧
    (getNextAttack c1State).1 = some (0, 0) ∧
    ((0, 0) : Coord) ∉ c1State.hit_stack := by
  decide

/-- Claim C1 (amended): get_next_attack pops at most ONE entry per call:
with (x, y) on top of the stack it returns (x, y) exactly when that cell
is still Unknown; otherwise the single stale entry is discarded silently
and the call falls through to the grid scans, never consulting deeper
stack entries; in both cases exactly the top entry is consumed. -/
theorem spec_c1_amended (s : Strategy) (x y : Int) (rest : List Coord)
    (h : s.hit_stack = (x, y) :: rest) :
    (s.board y x = '?' → (getNextAttack s).1 = some (x, y)) ∧
    (s.board y x ≠ '?' → (getNextAttack s).1 = scanPhase s) ∧
    (getNextAttack s).2.hit_stack = rest := by
  refine ⟨?_, ?_, ?_⟩
  · intro hq
    simp [getNextAttack, h, hq]
  · intro hq
    simp [getNextAttack, h, hq, scanPhase_pop]
  · by_cases hq : s.board y x = '?' <;> simp [getNextAttack, h, hq]

/-- Witness for spec_c1_amended at the concrete state c1State. -/
theorem spec_c1_amended_witness :
    c1State.hit_stack = ((0 : Int), (1 : Int)) :: [((1 : Int), (1 : Int))] ∧
    ((c1State.board 1 0 = '?' → (getNextAttack c1State).1 = some (0, 1)) ∧
      (c1State.board 1 0 ≠ '?' → (getNextAttack c1State).1 = scanPhase c1State) ∧
      (getNextAttack c1State).2.hit_stack = [((1 : Int), (1 : Int))]) :=
  ⟨rfl, spec_c1_amended c1State 0 1 [(1, 1)] rfl⟩

/-- Claim C2 is false as stated: after a hit at (2, 2) on a fresh 5x5
board the cell (2, 1) is still Unknown, yet the next get_next_attack
returns (1, 2), not (2, 1), and the stack is not the claimed
right-down-left-up push order (which, with the top of the stack first,
would read (2, 1), (1, 2), (2, 3), (3, 2)). -/
theorem spec_c2_counterexample :
    (registerAttack (Strategy.init 5 5 [(1, 1)]) 2 2 true false).board 1 2 = '?' ∧
    (getNextAttack (registerAttack (Strategy.init 5 5 [(1, 1)]) 2 2 true false)).1 =
      some (1, 2) ∧
    ¬ (getNextAttack (registerAttack (Strategy.init 5 5 [(1, 1)]) 2 2 true false)).1 =
      some (2, 1) ∧
    (registerAttack (Strategy.init 5 5 [(1, 1)]) 2 2 true false).hit_stack ≠
      [(2, 1), (1, 2), (2, 3), (3, 2)] := by
  decide

/-- Claim C2 (amended): a hit at (2, 2), not sunk, on a fresh 5x5 board
pushes the four unknown in-bounds neighbours in the direction-list order
down (2, 3), right (3, 2), up (2, 1), left (1, 2) — the stack, top first,
is [(1, 2), (2, 1), (3, 2), (2, 3)] — and the next get_next_attack pops
the last-pushed entry (1, 2), which is still Unknown. -/
theorem spec_c2_amended :
    (registerAttack (Strategy.init 5 5 [(1, 1)]) 2 2 true false).hit_stack =
      [(1, 2), (2, 1), (3, 2), (2, 3)] ∧
    (getNextAttack (registerAttack (Strategy.init 5 5 [(1, 1)]) 2 2 true false)).1 =
      some (1, 2) := by
  decide

/-- Claim C3 is false as stated: in c3s1 the cell (x=0, y=1) is a recorded
Miss, and the sink at (0, 0) in c3s2 overwrites that Miss cell with
Eliminated — the elimination loop checks only bounds and ship-set
membership, not that the cell is Unknown. -/
theorem spec_c3_counterexample :
    c3s1.board 1 0 = 'M' ∧ c3s2.board 1 0 = 'X' := by
  decide

/-- Claim C3 (amended): perimeter elimination overwrites any in-bounds
one-step neighbour of a ship tile that is not itself a ship tile,
regardless of its prior state — so Unknown, Miss and Eliminated cells may
all be overwritten with 'X' — but never a Hit or Sunk cell, because every
in-bounds Hit or Sunk neighbour of a ship tile belongs to the flood-filled
ship set and ship tiles are skipped. -/
theorem spec_c3_amended (s : Strategy) (x y : Int) (hb : s.InB x y) (hhs : isHS s (x, y))
    (cx cy : Int)
    (hch : (markSurroundingImpossible s x y).board cy cx ≠ s.board cy cx) :
    (markSurroundingImpossible s x y).board cy cx = 'X' ∧
    s.InB cx cy ∧ (cx, cy) ∉ shipTiles s x y ∧
    s.board cy cx ≠ 'H' ∧ s.board cy cx ≠ 'S' := by
  have hch' : (eliminate s (shipTiles s x y)).board cy cx ≠ s.board cy cx := hch
  obtain ⟨⟨t, ht, d, hd, hx1, hy1⟩, hin, hnot, hX⟩ :=
    eliminate_board_changed s (shipTiles s x y) cx cy hch'
  have hnHS : ¬ isHS s (cx, cy) := by
    intro hHS
    apply hnot
    rw [shipTiles_iff_reach s x y hb hhs]
    have ht2 := (shipTiles_good s x y hb hhs).sound t ht
    exact Relation.ReflTransGen.tail ht2.2.2 ⟨hin, hHS, ⟨d, hd, by rw [hx1, hy1]⟩⟩
  refine ⟨hX, hin, hnot, ?_, ?_⟩
  · intro hH
    exact hnHS (Or.inl hH)
  · intro hS
    exact hnHS (Or.inr hS)

/-- Witness for spec_c3_amended: in c3mid the sink at (0, 0) changes the
Miss cell (x=0, y=1), and the theorem reports it as an overwritten
non-Hit, non-Sunk cell. -/
theorem spec_c3_amended_witness :
    (c3mid.InB 0 0 ∧ isHS c3mid (0, 0) ∧
      (markSurroundingImpossible c3mid 0 0).board 1 0 ≠ c3mid.board 1 0) ∧
    ((markSurroundingImpossible c3mid 0 0).board 1 0 = 'X' ∧
      c3mid.InB 0 1 ∧ ((0 : Int), (1 : Int)) ∉ shipTiles c3mid 0 0 ∧
      c3mid.board 1 0 ≠ 'H' ∧ c3mid.board 1 0 ≠ 'S') :=
  ⟨⟨by decide, by decide, by decide⟩,
    spec_c3_amended c3mid 0 0 (by decide) (by decide) 0 1 (by decide)⟩

/-- Claim C4 is false as stated: in c4s2 the earlier hit (0, 0) belongs to
the discovered ship set of the sink at (1, 0), but its state after the
call is still 'H', not 'S' — only the reported cell is overwritten with
Sunk. -/
theorem spec_c4_counterexample :
    ((0 : Int), (0 : Int)) ∈ shipTiles c4mid 1 0 ∧
    c4s2.board 0 0 = 'H' ∧ c4s2.board 0 0 ≠ 'S' := by
  decide

/-- Claim C4 (amended): after register_attack with hit and sunk at an
in-bounds (x, y), the reported cell is Sunk; every in-bounds one-step
neighbour of a discovered ship tile that is not itself a ship tile — in
particular every such neighbour that was Unknown before the call — is
Eliminated; and every other tile of the discovered ship set keeps the
state it had before the call (an earlier Hit stays 'H', it does not
become Sunk). -/
theorem spec_c4_amended (s : Strategy) (x y : Int) (hb : s.InB x y) :
    (registerAttack s x y true true).board y x = 'S' ∧
    (∀ t ∈ shipTiles (((s.setCell y x 'H').setCell y x 'S').updateShipsDict) x y,
      ∀ d ∈ directions,
        s.InB (t.1 + d.1) (t.2 + d.2) →
        (t.1 + d.1, t.2 + d.2) ∉
          shipTiles (((s.setCell y x 'H').setCell y x 'S').updateShipsDict) x y →
        (registerAttack s x y true true).board (t.2 + d.2) (t.1 + d.1) = 'X') ∧
    (∀ t ∈ shipTiles (((s.setCell y x 'H').setCell y x 'S').updateShipsDict) x y,
      t ≠ (x, y) → (registerAttack s x y true true).board t.2 t.1 = s.board t.2 t.1) := by
  set s3 := ((s.setCell y x 'H').setCell y x 'S').updateShipsDict with hs3
  have hreg : registerAttack s x y true true = markSurroundingImpossible s3 x y := rfl
  have hb3 : s3.InB x y := hb
  have hS : s3.board y x = 'S' := by
    simp [hs3, Strategy.updateShipsDict, Strategy.setCell]
  have hhs3 : isHS s3 (x, y) := Or.inr hS
  have hgood := shipTiles_good s3 x y hb3 hhs3
  refine ⟨?_, ?_, ?_⟩
  · rw [hreg, markSurroundingImpossible]
    have h1 := eliminate_board_of_mem s3 (shipTiles s3 x y) (x, y) hgood.start_mem
    exact h1.trans hS
  · intro t ht d hd hin hnot
    rw [hreg, markSurroundingImpossible, eliminate_board, if_pos]
    exact ⟨⟨t, ht, d, hd, rfl, rfl⟩, hin, hnot⟩
  · intro t ht hne
    obtain ⟨t1, t2⟩ := t
    rw [hreg, markSurroundingImpossible]
    have h1 := eliminate_board_of_mem s3 (shipTiles s3 x y) (t1, t2) ht
    rw [h1]
    have hcase : ¬(t2 = y ∧ t1 = x) := by
      intro hcontra
      exact hne (by rw [hcontra.2, hcontra.1])
    simp [hs3, Strategy.updateShipsDict, Strategy.setCell, hcase]

/-- Witness for spec_c4_amended at the concrete game c4s1 with its sink at
(1, 0). -/
theorem spec_c4_amended_witness :
    c4s1.InB 1 0 ∧
    ((registerAttack c4s1 1 0 true true).board 0 1 = 'S' ∧
      (∀ t ∈ shipTiles c4mid 1 0, ∀ d ∈ directions,
        c4s1.InB (t.1 + d.1) (t.2 + d.2) →
        (t.1 + d.1, t.2 + d.2) ∉ shipTiles c4mid 1 0 →
        (registerAttack c4s1 1 0 true true).board (t.2 + d.2) (t.1 + d.1) = 'X') ∧
      (∀ t ∈ shipTiles c4mid 1 0, t ≠ (1, 0) →
        (registerAttack c4s1 1 0 true true).board t.2 t.1 = c4s1.board t.2 t.1)) :=
  ⟨by decide, spec_c4_amended c4s1 1 0 (by decide)⟩

/-- Claim C5: started from an in-bounds cell in state 'H' or 'S', the
flood fill of _mark_surrounding_impossible collects exactly the connected
component, under orthogonal adjacency, of 'H'/'S' cells containing the
start, and the perimeter elimination marks every in-bounds non-ship-tile
one-step neighbour of EVERY collected tile with 'X', not only neighbours
of the reported cell. -/
theorem spec_c5 (s : Strategy) (x y : Int) (hb : s.InB x y) (hhs : isHS s (x, y)) :
    (∀ c, c ∈ shipTiles s x y ↔ Reach s (x, y) c) ∧
    (∀ t ∈ shipTiles s x y, ∀ d ∈ directions,
      s.InB (t.1 + d.1) (t.2 + d.2) → (t.1 + d.1, t.2 + d.2) ∉ shipTiles s x y →
      (markSurroundingImpossible s x y).board (t.2 + d.2) (t.1 + d.1) = 'X') := by
  refine ⟨fun c => shipTiles_iff_reach s x y hb hhs c, ?_⟩
  intro t ht d hd hin hnot
  rw [markSurroundingImpossible, eliminate_board, if_pos]
  exact ⟨⟨t, ht, d, hd, rfl, rfl⟩, hin, hnot⟩

/-- Witness for spec_c5 at c5s, where a Hit at (0, 0) and the just-sunk
cell (1, 0) form one connected two-cell ship. -/
theorem spec_c5_witness :
    (c5s.InB 1 0 ∧ isHS c5s (1, 0)) ∧
    ((∀ c, c ∈ shipTiles c5s 1 0 ↔ Reach c5s (1, 0) c) ∧
      (∀ t ∈ shipTiles c5s 1 0, ∀ d ∈ directions,
        c5s.InB (t.1 + d.1) (t.2 + d.2) → (t.1 + d.1, t.2 + d.2) ∉ shipTiles c5s 1 0 →
        (markSurroundingImpossible c5s 1 0).board (t.2 + d.2) (t.1 + d.1) = 'X')) :=
  ⟨⟨by decide, by decide⟩, spec_c5 c5s 1 0 (by decide) (by decide)⟩

/-- Claim C6: when the stack yields no valid entry this call (it is empty,
or its popped top is no longer Unknown), get_next_attack returns the
row-major-first Unknown parity-even cell if one exists, and otherwise the
row-major-first Unknown cell of any parity. -/
theorem spec_c6 (s : Strategy)
    (hstack : s.hit_stack = [] ∨
      ∃ x y rest, s.hit_stack = ((x, y) : Coord) :: rest ∧ s.board y x ≠ '?') :
    ((∃ x, x < s.cols ∧ ∃ y, y < s.rows ∧ unknownEvenAt s x y = true) →
      ∃ x y : Nat, (getNextAttack s).1 = some ((x : Int), (y : Int)) ∧
        x < s.cols ∧ y < s.rows ∧ unknownEvenAt s x y = true ∧
        (∀ y', y' < y → ∀ x', x' < s.cols → unknownEvenAt s x' y' = false) ∧
        (∀ x', x' < x → unknownEvenAt s x' y = false)) ∧
    ((∀ x, x < s.cols → ∀ y, y < s.rows → unknownEvenAt s x y = false) →
      (∃ x, x < s.cols ∧ ∃ y, y < s.rows ∧ unknownAt s x y = true) →
      ∃ x y : Nat, (getNextAttack s).1 = some ((x : Int), (y : Int)) ∧
        x < s.cols ∧ y < s.rows ∧ unknownAt s x y = true ∧
        (∀ y', y' < y → ∀ x', x' < s.cols → unknownAt s x' y' = false) ∧
        (∀ x', x' < x → unknownAt s x' y = false)) := by
  have hfst : (getNextAttack s).1 = scanPhase s := by
    rcases hstack with hempty | ⟨x, y, rest, hcons, hstale⟩
    · simp [getNextAttack, hempty]
    · simp [getNextAttack, hcons, hstale, scanPhase_pop]
  refine ⟨?_, ?_⟩
  · intro hex
    obtain ⟨r, hr⟩ := scanGrid_ex s (unknownEvenAt s) hex
    obtain ⟨x0, y0⟩ := r
    obtain ⟨hc, hrr, hp, hfirst1, hfirst2⟩ := scanGrid_some s _ x0 y0 hr
    refine ⟨x0, y0, ?_, hc, hrr, hp, hfirst1, hfirst2⟩
    rw [hfst]
    simp [scanPhase, hr]
  · intro hnone hex
    have hg1 : scanGrid s (unknownEvenAt s) = none := by
      rw [scanGrid_none]
      intro y hy x hx
      exact hnone x hx y hy
    obtain ⟨r, hr⟩ := scanGrid_ex s (unknownAt s) hex
    obtain ⟨x0, y0⟩ := r
    obtain ⟨hc, hrr, hp, hfirst1, hfirst2⟩ := scanGrid_some s _ x0 y0 hr
    refine ⟨x0, y0, ?_, hc, hrr, hp, hfirst1, hfirst2⟩
    rw [hfst]
    simp [scanPhase, hg1, hr]

/-- Witness for spec_c6 on a fresh 2x2 board with an empty stack: the
parity branch returns (0, 0). -/
theorem spec_c6_witness :
    ∃ x y : Nat, (getNextAttack (Strategy.init 2 2 [(1, 1)])).1 = some ((x : Int), (y : Int)) ∧
      x < (Strategy.init 2 2 [(1, 1)]).cols ∧ y < (Strategy.init 2 2 [(1, 1)]).rows ∧
      unknownEvenAt (Strategy.init 2 2 [(1, 1)]) x y = true ∧
      (∀ y', y' < y → ∀ x', x' < (Strategy.init 2 2 [(1, 1)]).cols →
        unknownEvenAt (Strategy.init 2 2 [(1, 1)]) x' y' = false) ∧
      (∀ x', x' < x → unknownEvenAt (Strategy.init 2 2 [(1, 1)]) x' y = false) :=
  (spec_c6 (Strategy.init 2 2 [(1, 1)]) (Or.inl rfl)).1 ⟨0, by decide, 0, by decide, by decide⟩

/-- Claim C7: in every reachable state with at least one Unknown cell,
get_next_attack returns the coordinate of an in-bounds cell whose state is
Unknown at call time — it never proposes a Miss, Hit, Sunk or Eliminated
cell. -/
theorem spec_c7 (s : Strategy) (hreach : Reachable s)
    (hunk : ∃ x, x < s.cols ∧ ∃ y, y < s.rows ∧ s.board (y : Int) (x : Int) = '?') :
    ∃ p : Int × Int, (getNextAttack s).1 = some p ∧ s.InB p.1 p.2 ∧ s.board p.2 p.1 = '?' := by
  cases hst : s.hit_stack with
  | nil =>
    obtain ⟨r, hr⟩ := scanPhase_ex s hunk
    obtain ⟨x0, y0, rfl, hc, hrr, hb⟩ := scanPhase_some_char s r hr
    refine ⟨((x0 : Int), (y0 : Int)), ?_, ?_, hb⟩
    · simp [getNextAttack, hst, hr]
    · simp only [Strategy.InB]
      omega
  | cons p rest =>
    obtain ⟨px, py⟩ := p
    have hpin : s.InB px py :=
      reachable_stackOK s hreach (px, py) (by rw [hst]; exact List.mem_cons_self _ _)
    by_cases hb : s.board py px = '?'
    · refine ⟨(px, py), ?_, hpin, hb⟩
      simp [getNextAttack, hst, hb]
    · obtain ⟨r, hr⟩ := scanPhase_ex s hunk
      obtain ⟨x0, y0, rfl, hc, hrr, hbb⟩ := scanPhase_some_char s r hr
      refine ⟨((x0 : Int), (y0 : Int)), ?_, ?_, hbb⟩
      · simp [getNextAttack, hst, hb, scanPhase_pop, hr]
      · simp only [Strategy.InB]
        omega

/-- Witness for spec_c7 at the reachable initial 2x2 state. -/
theorem spec_c7_witness :
    (∃ x, x < (Strategy.init 2 2 [(1, 1)]).cols ∧ ∃ y, y < (Strategy.init 2 2 [(1, 1)]).rows ∧
      (Strategy.init 2 2 [(1, 1)]).board (y : Int) (x : Int) = '?') ∧
    ∃ p : Int × Int, (getNextAttack (Strategy.init 2 2 [(1, 1)])).1 = some p ∧
      (Strategy.init 2 2 [(1, 1)]).InB p.1 p.2 ∧
      (Strategy.init 2 2 [(1, 1)]).board p.2 p.1 = '?' :=
  ⟨⟨0, by decide, 0, by decide, by decide⟩,
    spec_c7 (Strategy.init 2 2 [(1, 1)]) (Reachable.init 2 2 [(1, 1)])
      ⟨0, by decide, 0, by decide, by decide⟩⟩

/-- Claim C8: on a register_attack call with hit and sunk while the fleet
(sorted by identifier, as sorted(keys) iterates it) still has a positive
entry, exactly the lowest-numbered positive entry is decremented by one,
the total remaining count drops by exactly one, and all_ships_sunk is true
exactly when every remaining count is zero. -/
theorem spec_c8 (s : Strategy) (x y : Int)
    (hsort : s.ships_dict.Pairwise (fun a b => a.1 < b.1))
    (hpos : ∃ e ∈ s.ships_dict, 0 < e.2) :
    ∃ pre k v post,
      s.ships_dict = pre ++ (k, v) :: post ∧ (∀ e ∈ pre, e.2 = 0) ∧ 0 < v ∧
      (registerAttack s x y true true).ships_dict = pre ++ (k, v - 1) :: post ∧
      (∀ e ∈ s.ships_dict, 0 < e.2 → k ≤ e.1) ∧
      sumCounts (registerAttack s x y true true).ships_dict + 1 = sumCounts s.ships_dict ∧
      (allShipsSunk (registerAttack s x y true true) = true ↔
        ∀ e ∈ (registerAttack s x y true true).ships_dict, e.2 = 0) := by
  obtain ⟨pre, k, v, post, h1, hpre, hv, hupd⟩ := updateShipsList_split s.ships_dict hpos
  have hregdict : (registerAttack s x y true true).ships_dict = updateShipsList s.ships_dict :=
    rfl
  refine ⟨pre, k, v, post, h1, hpre, hv, by rw [hregdict, hupd], ?_, ?_, allShipsSunk_iff _⟩
  · intro e he hepos
    rw [h1] at hsort he
    rw [List.pairwise_append] at hsort
    rcases List.mem_append.mp he with hepre | hecons
    · exact absurd hepos (by rw [hpre e hepre]; omega)
    · rcases List.mem_cons.mp hecons with rfl | hepost
      · exact le_rfl
      · have h2 := hsort.2.1
        rw [List.pairwise_cons] at h2
        exact le_of_lt (h2.1 e hepost)
  · rw [hregdict, hupd, h1]
    simp only [sumCounts, List.map_append, List.sum_append, List.map_cons, List.sum_cons]
    omega

/-- Witness for spec_c8 on a two-member fleet. -/
theorem spec_c8_witness :
    ((Strategy.init 2 2 [(1, 1), (2, 1)]).ships_dict.Pairwise (fun a b => a.1 < b.1) ∧
      ∃ e ∈ (Strategy.init 2 2 [(1, 1), (2, 1)]).ships_dict, 0 < e.2) ∧
    ∃ pre k v post,
      (Strategy.init 2 2 [(1, 1), (2, 1)]).ships_dict = pre ++ (k, v) :: post ∧
      (∀ e ∈ pre, e.2 = 0) ∧ 0 < v ∧
      (registerAttack (Strategy.init 2 2 [(1, 1), (2, 1)]) 0 0 true true).ships_dict =
        pre ++ (k, v - 1) :: post ∧
      (∀ e ∈ (Strategy.init 2 2 [(1, 1), (2, 1)]).ships_dict, 0 < e.2 → k ≤ e.1) ∧
      sumCounts (registerAttack (Strategy.init 2 2 [(1, 1), (2, 1)]) 0 0 true true).ships_dict + 1 =
        sumCounts (Strategy.init 2 2 [(1, 1), (2, 1)]).ships_dict ∧
      (allShipsSunk (registerAttack (Strategy.init 2 2 [(1, 1), (2, 1)]) 0 0 true true) = true ↔
        ∀ e ∈ (registerAttack (Strategy.init 2 2 [(1, 1), (2, 1)]) 0 0 true true).ships_dict,
          e.2 = 0) :=
  ⟨⟨by decide, by decide⟩, spec_c8 (Strategy.init 2 2 [(1, 1), (2, 1)]) 0 0 (by decide) (by decide)⟩

/-- Claim C9 is false as stated: the implementation raises nothing on the
claimed precondition violations. In c9s the cell (0, 0) is already
resolved as a Miss, yet re-reporting it as a hit silently overwrites it
with 'H'; and a sink reported while every fleet count is already zero
silently leaves the fleet mapping unchanged. Both calls return an
ordinary successor state instead of failing fast. -/
theorem spec_c9_counterexample :
    c9s.board 0 0 = 'M' ∧
    (registerAttack c9s 0 0 true false).board 0 0 = 'H' ∧
    (∀ e ∈ c9s.ships_dict, e.2 = 0) ∧
    (registerAttack c9s 1 1 true true).ships_dict = c9s.ships_dict := by
  decide

/-- Claim C9 (amended): register_attack performs no precondition checks:
re-reporting an already-resolved cell silently overwrites its state as if
it were fresh, and a sink reported with an exhausted fleet silently leaves
every remaining count unchanged; no assertion or exception exists on these
paths. -/
theorem spec_c9_amended (s : Strategy) (x y : Int)
    (_hres : s.board y x ≠ '?') (hexh : ∀ e ∈ s.ships_dict, e.2 = 0) :
    (registerAttack s x y true false).board y x = 'H' ∧
    (registerAttack s x y true true).ships_dict = s.ships_dict := by
  constructor
  · show (s.setCell y x 'H').board y x = 'H'
    simp [Strategy.setCell]
  · show updateShipsList s.ships_dict = s.ships_dict
    exact updateShipsList_of_all_zero s.ships_dict hexh

/-- Witness for spec_c9_amended at the concrete state c9s. -/
theorem spec_c9_amended_witness :
    (c9s.board 0 0 ≠ '?' ∧ ∀ e ∈ c9s.ships_dict, e.2 = 0) ∧
    ((registerAttack c9s 0 0 true false).board 0 0 = 'H' ∧
      (registerAttack c9s 0 0 true true).ships_dict = c9s.ships_dict) :=
  ⟨⟨by decide, by decide⟩, spec_c9_amended c9s 0 0 (by decide) (by decide)⟩

/-- Claim C10: when no in-bounds cell is Unknown and no stack entry points
at an Unknown cell, get_next_attack runs off the end of its body and
returns no coordinate at all (Python None), rather than raising or
returning an in-bounds pair. -/
theorem spec_c10 (s : Strategy)
    (hgrid : ∀ y, y < s.rows → ∀ x, x < s.cols → s.board (y : Int) (x : Int) ≠ '?')
    (hstack : ∀ c ∈ s.hit_stack, s.board c.2 c.1 ≠ '?') :
    (getNextAttack s).1 = none := by
  have hscan : scanPhase s = none := scanPhase_none_of s hgrid
  cases hst : s.hit_stack with
  | nil => simp [getNextAttack, hst, hscan]
  | cons p rest =>
    obtain ⟨px, py⟩ := p
    have hb : s.board py px ≠ '?' :=
      hstack (px, py) (by rw [hst]; exact List.mem_cons_self _ _)
    simp [getNextAttack, hst, hb, scanPhase_pop, hscan]

/-- Witness for spec_c10 at the finished 1x1 game c10s. -/
theorem spec_c10_witness :
    ((∀ y, y < c10s.rows → ∀ x, x < c10s.cols → c10s.board (y : Int) (x : Int) ≠ '?') ∧
      ∀ c ∈ c10s.hit_stack, c10s.board c.2 c.1 ≠ '?') ∧
    (getNextAttack c10s).1 = none :=
  ⟨⟨by decide, by decide⟩, spec_c10 c10s (by decide) (by decide)⟩

end Battleship
